import Mathlib

/-!
Verification of the color-scale generation, merging, reference resolution and
validation logic of the servicenow-theme-loader repository
(src/parser.js `ThemeParser`, src/index.js `ServiceNowThemeLoader`).

Numbers: the source computes in JS binary64 floating point. Every numeric
expression the program evaluates (integer channels joined with the constants
0.25, 0.80, 0.65 and the interpolants i/21) produces, after `Math.round`, the
same integer under binary64 evaluation as under exact fraction arithmetic, so
the embedding computes with exact fractions. Fractions are kept unnormalized
(`Frac`, below) so that every definition evaluates inside the Lean kernel.
JS `NaN` is modelled as `none` of an `Option`.
-/

namespace ThemeLoader

/-- Exact fraction standing for a JS number. The denominator is positive in
every value the program constructs; operations do not normalize. -/
structure Frac where
  num : ℤ
  den : ℤ
deriving DecidableEq

instance : OfNat Frac n := ⟨⟨n, 1⟩⟩

instance : NatCast Frac := ⟨fun n => ⟨n, 1⟩⟩

instance : IntCast Frac := ⟨fun z => ⟨z, 1⟩⟩

instance : Add Frac := ⟨fun a b => ⟨a.num * b.den + b.num * a.den, a.den * b.den⟩⟩

instance : Sub Frac := ⟨fun a b => ⟨a.num * b.den - b.num * a.den, a.den * b.den⟩⟩

instance : Mul Frac := ⟨fun a b => ⟨a.num * b.num, a.den * b.den⟩⟩

instance : Div Frac := ⟨fun a b => ⟨a.num * b.den, a.den * b.num⟩⟩

instance : LT Frac := ⟨fun a b => a.num * b.den < b.num * a.den⟩

instance (a b : Frac) : Decidable (a < b) :=
  inferInstanceAs (Decidable (a.num * b.den < b.num * a.den))

/-- Model of `Math.round` on a (finite) value: round half toward positive
infinity, i.e. the floor of x + 1/2, computed with flooring integer division.
Valid for the positive denominators this program produces. -/
def jround (q : Frac) : ℤ := (2 * q.num + q.den).fdiv (2 * q.den)

/-- Test whether one character list is an initial segment of another. -/
def charsStarts : List Char → List Char → Bool
  | [], _ => true
  | _ :: _, [] => false
  | p :: ps, c :: cs => if p = c then charsStarts ps cs else false

/-- Model of the JS builtin `String.prototype.startsWith`. -/
def jsStartsWith (s pre : String) : Bool := charsStarts pre.data s.data

/-- Split a character list at every occurrence of a separator character. -/
def splitChars (sep : Char) : List Char → List (List Char)
  | [] => [[]]
  | c :: cs =>
      if c = sep then [] :: splitChars sep cs
      else
        match splitChars sep cs with
        | [] => [[c]]
        | g :: gs => (c :: g) :: gs

/-- Model of the JS builtin `String.prototype.split` with a one-character
separator: `"".split(',')` is `[""]`, as in JS. -/
def jsSplit (s : String) (sep : Char) : List String :=
  (splitChars sep s.data).map (fun l => ⟨l⟩)

/-- Decimal digit value of a character, if it is a digit. -/
def digit? (c : Char) : Option ℕ :=
  if 48 ≤ c.toNat ∧ c.toNat ≤ 57 then some (c.toNat - 48) else none

/-- Accumulate the decimal value of a digit list; `none` on a non-digit. -/
def decNatAux : List Char → ℕ → Option ℕ
  | [], acc => some acc
  | c :: cs, acc =>
      match digit? c with
      | some d => decNatAux cs (acc * 10 + d)
      | none => none

/-- Model of the JS builtin `Number(s)` on the strings theme files contain:
a string of decimal digits converts to its value, the empty string to 0
(JS `Number('') === 0`), anything else to NaN (`none`). -/
def jsNumber (s : String) : Option ℤ :=
  match s.data with
  | [] => some 0
  | l => (decNatAux l 0).map Int.ofNat

/-- Render one computed channel the way JS template interpolation renders the
corresponding double: integers in decimal, NaN as "NaN". -/
def chanStr : Option ℤ → String
  | some z => toString z
  | none => "NaN"

/-- Assemble the "r,g,b" string the source pushes onto the scale. -/
def fmt3 (x y z : Option ℤ) : String :=
  chanStr x ++ "," ++ chanStr y ++ "," ++ chanStr z

/-- Constant `tint = 0.25` (src/parser.js line 32). -/
def tint : Frac := 25 / 100

/-- Constant `shade2 = 0.80` (src/parser.js line 39). -/
def shade2 : Frac := 80 / 100

/-- Constant `shade3 = 0.65` (src/parser.js line 43). -/
def shade3 : Frac := 65 / 100

/-- Constant `midPoint = 0.5` (src/parser.js line 60). -/
def midPoint : Frac := 1 / 2

/-- Body of `ThemeParser.generateColorScale` after the channel destructuring
(src/parser.js lines 25-80), with the three channels already converted by
`Number`; `none` is NaN, which propagates through the per-channel arithmetic.
The test `i === points - 1` is written `i + 1 = points` over ℕ. -/
def scaleFromChannels (r g b : Option ℤ) (points : ℕ) : List String :=
  if points = 4 then
    [ fmt3 (r.map (fun n => jround ((n : Frac) + (255 - (n : Frac)) * tint)))
           (g.map (fun n => jround ((n : Frac) + (255 - (n : Frac)) * tint)))
           (b.map (fun n => jround ((n : Frac) + (255 - (n : Frac)) * tint))),
      chanStr r ++ "," ++ chanStr g ++ "," ++ chanStr b,
      fmt3 (r.map (fun n => jround ((n : Frac) * shade2)))
           (g.map (fun n => jround ((n : Frac) * shade2)))
           (b.map (fun n => jround ((n : Frac) * shade2))),
      fmt3 (r.map (fun n => jround ((n : Frac) * shade3)))
           (g.map (fun n => jround ((n : Frac) * shade3)))
           (b.map (fun n => jround ((n : Frac) * shade3))) ]
  else
    (List.range points).map (fun i =>
      if i = 0 then "255,255,255"
      else if i + 1 = points then "0,0,0"
      else
        let t : Frac := (i : Frac) / ((points : Frac) - 1)
        if t < midPoint then
          let factor := t / midPoint
          fmt3 (r.map (fun n => jround (255 + ((n : Frac) - 255) * factor)))
               (g.map (fun n => jround (255 + ((n : Frac) - 255) * factor)))
               (b.map (fun n => jround (255 + ((n : Frac) - 255) * factor)))
        else
          let factor := (t - midPoint) / (1 - midPoint)
          fmt3 (r.map (fun n => jround ((n : Frac) * (1 - factor))))
               (g.map (fun n => jround ((n : Frac) * (1 - factor))))
               (b.map (fun n => jround ((n : Frac) * (1 - factor)))))

/-- Function `ThemeParser.generateColorScale` (src/parser.js lines 23-81):
`const [r, g, b] = baseColor.split(',').map(Number)` followed by the scale
construction; a missing destructured component behaves as NaN. -/
def generateColorScale (baseColor : String) (points : ℕ) : List String :=
  let parts := (jsSplit baseColor ',').map jsNumber
  scaleFromChannels ((parts.get? 0).join) ((parts.get? 1).join) ((parts.get? 2).join) points

/-- Values occurring in theme documents: strings, booleans (the `isDark`
marker), numbers. -/
inductive JSVal where
  | vStr (s : String)
  | vBool (b : Bool)
  | vNum (q : ℚ)
deriving DecidableEq

/-- First-match association-list lookup, modelling JS property access `o[k]`
on the insertion-ordered, duplicate-free objects the program builds. -/
def alook : List (String × JSVal) → String → Option JSVal
  | [], _ => none
  | p :: ps, k => if p.1 = k then some p.2 else alook ps k

/-- Single JS property assignment `o[k] = v` on an insertion-ordered object:
an existing key keeps its position, a new key is appended at the end. -/
def objSet (o : List (String × JSVal)) (k : String) (v : JSVal) : List (String × JSVal) :=
  if o.any (fun p => p.1 = k) then
    o.map (fun p => if p.1 = k then (k, v) else p)
  else
    o ++ [(k, v)]

/-- Model of `Object.assign(o, src)`: copy the entries of src into o in
source order, later entries overwriting earlier ones. -/
def objAssign (o : List (String × JSVal)) (src : List (String × JSVal)) : List (String × JSVal) :=
  src.foldl (fun acc p => objSet acc p.1 p.2) o

/-- A theme document as handed to the parser: optional `base` and
`properties` sections, each an insertion-ordered string-keyed object. -/
structure ThemeDoc where
  base : Option (List (String × JSVal)) := none
  properties : Option (List (String × JSVal)) := none
deriving DecidableEq

/-- Accumulator and result shape of `ThemeParser.merge`: both sections are
always present. -/
structure Merged where
  base : List (String × JSVal)
  properties : List (String × JSVal)
deriving DecidableEq

/-- Folding part of `ThemeParser.merge` (src/parser.js lines 139-148): start
from empty sections and `Object.assign` each document's sections over them,
before any scale generation. -/
def mergeFold (themes : List ThemeDoc) : Merged :=
  themes.foldl
    (fun merged theme =>
      { base :=
          match theme.base with
          | some tb => objAssign merged.base tb
          | none => merged.base
        properties :=
          match theme.properties with
          | some tp => objAssign merged.properties tp
          | none => merged.properties })
    { base := [], properties := [] }

/-- List `neutralColors` (src/parser.js line 166). -/
def neutralColors : List String := ["--now-color--neutral"]

/-- List `fourPointColors` (src/parser.js lines 169-184). -/
def fourPointColors : List String :=
  [ "--now-color--primary",
    "--now-color--secondary",
    "--now-color_selection--primary",
    "--now-color_selection--secondary",
    "--now-color--interactive",
    "--now-color--link",
    "--now-color--focus",
    "--now-color_alert--critical",
    "--now-color_alert--high",
    "--now-color_alert--warning",
    "--now-color_alert--moderate",
    "--now-color_alert--info",
    "--now-color_alert--positive",
    "--now-color_alert--low" ]

/-- Key under which a generated scale entry is stored:
`themeData.base[`...`${colorName}-${index}`...`]` (src/parser.js 194, 206). -/
def scaleKey (role : String) (i : ℕ) : String := role ++ "-" ++ toString i

/-- Guard `baseValue && typeof baseValue === 'string'` (src/parser.js 191,
203): passes exactly on truthy (non-empty) strings, which it returns. -/
def truthyStr : Option JSVal → Option String
  | some (JSVal.vStr s) => if s = "" then none else some s
  | _ => none

/-- Loop `scale.forEach((value, index) => themeData.base[...] = value)`,
writing the scale entries into the base object with a running index. -/
def writeScale (role : String) : List String → ℕ → List (String × JSVal) → List (String × JSVal)
  | [], _, o => o
  | v :: rest, i, o => writeScale role rest (i + 1) (objSet o (scaleKey role i) (JSVal.vStr v))

/-- Processing of one role inside `ThemeParser.generateScales`: look the role
up in base, and when the guard passes generate and store its scale. -/
def expandRole (role : String) (points : ℕ) (b : List (String × JSVal)) : List (String × JSVal) :=
  match truthyStr (alook b role) with
  | some s => writeScale role (generateColorScale s points) 0 b
  | none => b

/-- Function `ThemeParser.generateScales` (src/parser.js lines 162-213): the
22-point neutral roles, then the 4-point roles. The merged document always
has a base section, so the early return for a missing base is vacuous here;
the generated-count console logging is dropped. -/
def generateScales (m : Merged) : Merged :=
  { m with
    base :=
      fourPointColors.foldl (fun b r => expandRole r 4 b)
        (neutralColors.foldl (fun b r => expandRole r 22 b) m.base) }

/-- Function `ThemeParser.merge` (src/parser.js lines 138-154). -/
def merge (themes : List ThemeDoc) : Merged :=
  generateScales (mergeFold themes)

/-- Function `ThemeParser.resolveValue` (src/parser.js lines 119-130). -/
def resolveValue (value : JSVal) : JSVal :=
  match value with
  | JSVal.vStr s =>
      if jsStartsWith s "--" then JSVal.vStr ("var(" ++ s ++ ")") else JSVal.vStr s
  | v => v

/-- Possible arguments of `validate`: undefined, null, a non-object
primitive, or an object-shaped theme document. -/
inductive ThemeInput where
  | undef
  | nullv
  | prim (v : JSVal)
  | doc (d : ThemeDoc)

/-- Validation result `{ valid, errors }` (src/parser.js lines 251-254). -/
structure ValidationReport where
  valid : Bool
  errors : List String
deriving DecidableEq

/-- Function `ThemeParser.validate` (src/parser.js lines 220-255). The guard
`!themeData || typeof themeData !== 'object'` accepts exactly the
object-shaped inputs; the error pushes are modelled as list concatenation in
push order. -/
def validate (themeData : ThemeInput) : ValidationReport :=
  match themeData with
  | ThemeInput.doc d =>
      let sectionErrs :=
        if d.base.isNone && d.properties.isNone then
          ["Theme must have either \"base\" or \"properties\" section"]
        else []
      let baseErrs :=
        (d.base.getD []).filterMap (fun p =>
          if !jsStartsWith p.1 "--" && p.1 != "isDark" then
            some ("Base key \"" ++ p.1 ++ "\" should start with --")
          else none)
      let propErrs :=
        (d.properties.getD []).filterMap (fun p =>
          if !jsStartsWith p.1 "--" then
            some ("Property key \"" ++ p.1 ++ "\" should start with --")
          else none)
      let errors := sectionErrs ++ baseErrs ++ propErrs
      { valid := errors.isEmpty, errors := errors }
  | _ => { valid := false, errors := ["Theme data must be an object"] }

/-- Function `ServiceNowThemeLoader.loadSingleTheme` fetches and parses one
JSON file; the network and cache layers are out of scope, so the loader is a
parameter mapping paths to already-parsed documents. -/
def loadSingleTheme (L : String → ThemeDoc) (path : String) : ThemeDoc := L path

/-- Function `ServiceNowThemeLoader.loadThemeSet` (src/index.js lines
148-158): load every path, then merge the documents in list order. -/
def loadThemeSet (L : String → ThemeDoc) (themePaths : List String) : Merged :=
  merge (themePaths.map (loadSingleTheme L))

/-- Function `ServiceNowThemeLoader.loadTheme` (src/index.js lines 169-175). -/
def loadTheme (L : String → ThemeDoc) (themeName variant : String) : Merged :=
  loadThemeSet L
    [ "themes/" ++ themeName ++ "/variants/" ++ variant ++ "/colors.json",
      "themes/" ++ themeName ++ "/shape-and-form.json",
      "themes/" ++ themeName ++ "/typography.json" ]

/-- View of a `Merged` result as a theme document, as JS freely passes the
merged `{ base, properties }` object back into `merge`. -/
def mergedToDoc (m : Merged) : ThemeDoc :=
  { base := some m.base, properties := some m.properties }

/-- First-defined choice between two optional values. -/
def oor (a b : Option JSVal) : Option JSVal :=
  match a with
  | some v => some v
  | none => b

/-- Last-wins lookup over a raw entry list: the value `Object.assign` leaves
behind for a key after copying the entries in order. -/
def lastDef (es : List (String × JSVal)) (k : String) : Option JSVal :=
  es.foldl (fun acc p => if p.1 = k then some p.2 else acc) none

/-- Role list with point counts, in processing order of `generateScales`. -/
def roleSpecs : List (String × ℕ) :=
  neutralColors.map (fun r => (r, 22)) ++ fourPointColors.map (fun r => (r, 4))

/-- One step of the fold inside `mergeFold`. -/
def mergeStep (merged : Merged) (theme : ThemeDoc) : Merged :=
  { base :=
      match theme.base with
      | some tb => objAssign merged.base tb
      | none => merged.base
    properties :=
      match theme.properties with
      | some tp => objAssign merged.properties tp
      | none => merged.properties }

/-- Fold of `expandRole` over a list of role/point-count specifications. -/
def foldSpecs (specs : List (String × ℕ)) (b : List (String × JSVal)) : List (String × JSVal) :=
  specs.foldl (fun acc p => expandRole p.1 p.2 acc) b

/-- All keys that scale generation can ever write, per specification list. -/
def specKeys (specs : List (String × ℕ)) : List String :=
  specs.flatMap (fun p => (List.range p.2).map (fun i => scaleKey p.1 i))

/-- Duplicate-freedom of an object's key list: the invariant of every object
the program builds. -/
def keysND (o : List (String × JSVal)) : Prop := (o.map Prod.fst).Nodup

/-- Defined after the claim's words: the base value for k contributed by the
last document in the sequence whose base section defines k; a document that
omits k leaves the earlier value untouched. -/
def specLastBase (docs : List ThemeDoc) (k : String) : Option JSVal :=
  docs.foldl (fun acc d =>
    match lastDef (d.base.getD []) k with
    | some v => some v
    | none => acc) none

/-- Defined after the claim's words, for the properties section. -/
def specLastProps (docs : List ThemeDoc) (k : String) : Option JSVal :=
  docs.foldl (fun acc d =>
    match lastDef (d.properties.getD []) k with
    | some v => some v
    | none => acc) none

/-- Direct view of one document as a merged accumulator, for comparing
`merge([A])` with `A` plus scale expansion. -/
def docAsMerged (d : ThemeDoc) : Merged :=
  { base := d.base.getD [], properties := d.properties.getD [] }

/-- Values the specification's data model allows in a document's base section:
non-empty (truthy) color strings; the boolean dark marker is permitted only at
its escape key. -/
def okVal : JSVal → Bool
  | JSVal.vStr s => s != ""
  | _ => false

/-- Spec-conformant base section: every entry is a truthy color string, or
sits at the `isDark` escape key. -/
def DocOk (d : ThemeDoc) : Prop :=
  ∀ p ∈ d.base.getD [], okVal p.2 = true ∨ p.1 = "isDark"

/-- Entry list appended by one scale write when all its keys are fresh. -/
def scaleEntries (role : String) : List String → ℕ → List (String × JSVal)
  | [], _ => []
  | v :: rest, i => (scaleKey role i, JSVal.vStr v) :: scaleEntries role rest (i + 1)

theorem oor_none_right (a : Option JSVal) : oor a none = a := by
  cases a <;> rfl

theorem oor_assoc (a b c : Option JSVal) : oor (oor a b) c = oor a (oor b c) := by
  cases a <;> rfl

theorem alook_append (xs ys : List (String × JSVal)) (k : String) :
    alook (xs ++ ys) k = oor (alook xs k) (alook ys k) := by
  induction xs with
  | nil => rfl
  | cons p ps ih => by_cases h : p.1 = k <;> simp [alook, h, ih, oor]

theorem alook_eq_none_of_not_any (o : List (String × JSVal)) (k : String)
    (h : (o.any fun p => p.1 = k) = false) : alook o k = none := by
  induction o with
  | nil => rfl
  | cons p ps ih =>
      simp only [List.any_cons, Bool.or_eq_false_iff, decide_eq_false_iff_not] at h
      simp [alook, h.1, ih h.2]

theorem alook_map_set_ne (o : List (String × JSVal)) (k k' : String) (v : JSVal)
    (h : ¬ k' = k) :
    alook (o.map fun p => if p.1 = k then (k, v) else p) k' = alook o k' := by
  induction o with
  | nil => rfl
  | cons p ps ih =>
      by_cases hp : p.1 = k
      · have h1 : ¬ k = k' := fun hh => h hh.symm
        have h2 : ¬ p.1 = k' := by rw [hp]; exact h1
        simp [alook, hp, h1, h2, ih]
      · by_cases hp' : p.1 = k' <;> simp [alook, hp, hp', h, ih]

theorem alook_map_set_hit (o : List (String × JSVal)) (k : String) (v : JSVal)
    (h : (o.any fun p => p.1 = k) = true) :
    alook (o.map fun p => if p.1 = k then (k, v) else p) k = some v := by
  induction o with
  | nil => simp at h
  | cons p ps ih =>
      by_cases hp : p.1 = k
      · simp [alook, hp]
      · simp only [List.any_cons, Bool.or_eq_true, decide_eq_true_eq] at h
        have hps : (ps.any fun p => p.1 = k) = true := by
          rcases h with h | h
          · exact absurd h hp
          · exact h
        simp [alook, hp, ih hps]

theorem alook_objSet (o : List (String × JSVal)) (k k' : String) (v : JSVal) :
    alook (objSet o k v) k' = if k' = k then some v else alook o k' := by
  unfold objSet
  by_cases hmem : (o.any fun p => p.1 = k) = true
  · rw [if_pos hmem]
    by_cases hk : k' = k
    · rw [if_pos hk, hk, alook_map_set_hit o k v hmem]
    · rw [if_neg hk, alook_map_set_ne o k k' v hk]
  · rw [if_neg hmem, alook_append]
    by_cases hk : k' = k
    · subst hk
      rw [if_pos rfl, alook_eq_none_of_not_any o k' (Bool.eq_false_iff.mpr hmem)]
      simp [alook, oor]
    · rw [if_neg hk]
      have hkk : ¬ k = k' := fun hh => hk hh.symm
      have hnone : alook [(k, v)] k' = none := by simp [alook, hkk]
      rw [hnone, oor_none_right]

theorem foldl_oor_generic {α : Type} (f : α → Option JSVal) (l : List α)
    (init : Option JSVal) :
    l.foldl (fun acc x => oor (f x) acc) init =
      oor (l.foldl (fun acc x => oor (f x) acc) none) init := by
  induction l generalizing init with
  | nil => cases init <;> rfl
  | cons x l ih =>
      simp only [List.foldl_cons]
      rw [ih (oor (f x) init), ih (oor (f x) none), oor_assoc, oor_assoc]
      rfl

theorem lastDef_step (k : String) :
    (fun (acc : Option JSVal) (q : String × JSVal) =>
        if q.1 = k then some q.2 else acc) =
      fun acc q => oor (if q.1 = k then some q.2 else none) acc := by
  funext acc q
  by_cases h : q.1 = k <;> simp [h, oor]

theorem lastDef_cons (p : String × JSVal) (es : List (String × JSVal)) (k : String) :
    lastDef (p :: es) k = oor (lastDef es k) (if p.1 = k then some p.2 else none) := by
  unfold lastDef
  simp only [List.foldl_cons]
  rw [lastDef_step k, foldl_oor_generic]

theorem alook_objAssign (o : List (String × JSVal)) (es : List (String × JSVal)) (k : String) :
    alook (objAssign o es) k = oor (lastDef es k) (alook o k) := by
  induction es generalizing o with
  | nil => simp [objAssign, lastDef, oor]
  | cons p es ih =>
      have step : objAssign o (p :: es) = objAssign (objSet o p.1 p.2) es := rfl
      rw [step, ih, lastDef_cons p es k, oor_assoc, alook_objSet]
      by_cases h : p.1 = k
      · simp [h, oor]
      · have h' : ¬ k = p.1 := fun hk => h hk.symm
        simp [h, h', oor]

theorem mergeFold_eq_foldl (themes : List ThemeDoc) :
    mergeFold themes = themes.foldl mergeStep { base := [], properties := [] } := rfl

theorem alook_mergeStep_base (m : Merged) (d : ThemeDoc) (k : String) :
    alook (mergeStep m d).base k = oor (lastDef (d.base.getD []) k) (alook m.base k) := by
  cases hb : d.base with
  | none => simp [mergeStep, hb, lastDef, oor]
  | some es => simp [mergeStep, hb, alook_objAssign]

theorem alook_mergeStep_properties (m : Merged) (d : ThemeDoc) (k : String) :
    alook (mergeStep m d).properties k =
      oor (lastDef (d.properties.getD []) k) (alook m.properties k) := by
  cases hb : d.properties with
  | none => simp [mergeStep, hb, lastDef, oor]
  | some es => simp [mergeStep, hb, alook_objAssign]

theorem scaleFromChannels_length (r g b : Option ℤ) (points : ℕ) :
    (scaleFromChannels r g b points).length = points := by
  unfold scaleFromChannels
  by_cases h : points = 4
  · subst h; rfl
  · rw [if_neg h]
    simp

theorem generateColorScale_len (baseColor : String) (points : ℕ) :
    (generateColorScale baseColor points).length = points := by
  unfold generateColorScale
  exact scaleFromChannels_length _ _ _ _

theorem alook_writeScale_ne (role : String) (scale : List String) (start : ℕ)
    (o : List (String × JSVal)) (k : String)
    (h : ∀ j, j < scale.length → scaleKey role (start + j) ≠ k) :
    alook (writeScale role scale start o) k = alook o k := by
  induction scale generalizing start o with
  | nil => rfl
  | cons v rest ih =>
      rw [writeScale]
      rw [ih (start + 1) _ (fun j hj => by
        have h2 := h (j + 1) (by simpa using Nat.succ_lt_succ hj)
        rw [show start + 1 + j = start + (j + 1) from by omega]
        exact h2)]
      rw [alook_objSet]
      have h0 : scaleKey role start ≠ k := by
        have := h 0 (by simp)
        simpa using this
      rw [if_neg (fun hk => h0 hk.symm)]

theorem alook_writeScale_hit (role : String) (scale : List String) (start i : ℕ)
    (o : List (String × JSVal)) (v : String)
    (hg : scale.get? i = some v)
    (hinj : ∀ a b, a < start + scale.length → b < start + scale.length →
        scaleKey role a = scaleKey role b → a = b) :
    alook (writeScale role scale start o) (scaleKey role (start + i)) = some (JSVal.vStr v) := by
  induction scale generalizing start o i with
  | nil => simp at hg
  | cons w rest ih =>
      cases i with
      | zero =>
          have hw : w = v := by simpa using hg
          rw [writeScale]
          rw [alook_writeScale_ne role rest (start + 1) _ _ (fun j hj hk => by
            have ha : start + 1 + j < start + (w :: rest).length := by
              simp only [List.length_cons]; omega
            have hb : start + 0 < start + (w :: rest).length := by
              simp only [List.length_cons]; omega
            have := hinj (start + 1 + j) (start + 0) ha hb hk
            omega)]
          rw [alook_objSet]
          simp [hw]
      | succ i' =>
          rw [writeScale, show start + (i' + 1) = (start + 1) + i' from by omega]
          exact ih (start + 1) i' _ (by simpa using hg)
            (fun a b ha hb => hinj a b
              (by simp only [List.length_cons] at ha ⊢; omega)
              (by simp only [List.length_cons] at hb ⊢; omega))

theorem alook_expandRole_ne (role : String) (pts : ℕ) (b : List (String × JSVal)) (k : String)
    (h : ∀ j, j < pts → scaleKey role j ≠ k) :
    alook (expandRole role pts b) k = alook b k := by
  unfold expandRole
  cases ht : truthyStr (alook b role) with
  | none => rfl
  | some s =>
      rw [alook_writeScale_ne]
      intro j hj
      rw [Nat.zero_add]
      exact h j (by rw [generateColorScale_len] at hj; exact hj)

theorem alook_expandRole_hit (role : String) (pts i : ℕ) (b : List (String × JSVal))
    (hi : i < pts)
    (hinj : ∀ a b', a < pts → b' < pts → scaleKey role a = scaleKey role b' → a = b') :
    alook (expandRole role pts b) (scaleKey role i) =
      match truthyStr (alook b role) with
      | some s => ((generateColorScale s pts).get? i).map JSVal.vStr
      | none => alook b (scaleKey role i) := by
  unfold expandRole
  cases ht : truthyStr (alook b role) with
  | none => rfl
  | some s =>
      have hlen : (generateColorScale s pts).length = pts := generateColorScale_len s pts
      have hlt : i < (generateColorScale s pts).length := by rw [hlen]; exact hi
      have hv : (generateColorScale s pts).get? i =
          some ((generateColorScale s pts).get ⟨i, hlt⟩) := List.get?_eq_get hlt
      rw [show scaleKey role i = scaleKey role (0 + i) from by rw [Nat.zero_add]]
      rw [alook_writeScale_hit role _ 0 i b _ hv
        (fun a b' ha hb' => hinj a b'
          (by rw [Nat.zero_add, hlen] at ha; exact ha)
          (by rw [Nat.zero_add, hlen] at hb'; exact hb'))]
      show some (JSVal.vStr ((generateColorScale s pts).get ⟨i, hlt⟩)) =
        ((generateColorScale s pts).get? i).map JSVal.vStr
      rw [hv]
      rfl

set_option maxHeartbeats 400000 in
theorem generateScales_def (m : Merged) :
    generateScales m = Merged.mk (foldSpecs roleSpecs m.base) m.properties := by
  simp only [generateScales, foldSpecs, roleSpecs, neutralColors, fourPointColors,
    List.map_cons, List.map_nil, List.cons_append, List.nil_append,
    List.foldl_cons, List.foldl_nil]

set_option maxHeartbeats 400000 in
theorem generateScales_base_eq (m : Merged) :
    (generateScales m).base = foldSpecs roleSpecs m.base := by
  rw [generateScales_def]

set_option maxHeartbeats 400000 in
theorem generateScales_properties_eq (m : Merged) :
    (generateScales m).properties = m.properties := by
  rw [generateScales_def]

theorem alook_foldSpecs_ne (specs : List (String × ℕ)) (b : List (String × JSVal)) (k : String)
    (h : ∀ q ∈ specs, ∀ j, j < q.2 → scaleKey q.1 j ≠ k) :
    alook (foldSpecs specs b) k = alook b k := by
  induction specs generalizing b with
  | nil => rfl
  | cons q specs ih =>
      have step : foldSpecs (q :: specs) b = foldSpecs specs (expandRole q.1 q.2 b) := rfl
      rw [step, ih _ (fun q' hq' => h q' (List.mem_cons_of_mem _ hq')),
        alook_expandRole_ne _ _ _ _ (h q (List.mem_cons_self _ _))]

set_option maxHeartbeats 1000000 in
theorem specKeys_nodup : (specKeys roleSpecs).Nodup := by decide

set_option maxHeartbeats 1000000 in
theorem roles_not_specKeys : ∀ p ∈ roleSpecs, p.1 ∉ specKeys roleSpecs := by decide

theorem roleSpecs_nodup : roleSpecs.Nodup := by decide

theorem roles_ne_isDark : ∀ p ∈ roleSpecs, p.1 ≠ "isDark" := by decide

theorem neutral_mem_roleSpecs : ("--now-color--neutral", 22) ∈ roleSpecs := by decide

theorem fourPoint_sub_roleSpecs :
    ∀ r ∈ fourPointColors, (r, 4) ∈ roleSpecs := by decide

theorem scaleKey_mem_specKeys {q : String × ℕ} {i : ℕ}
    (h : q ∈ roleSpecs) (hi : i < q.2) : scaleKey q.1 i ∈ specKeys roleSpecs :=
  List.mem_flatMap.mpr ⟨q, h, List.mem_map.mpr ⟨i, List.mem_range.mpr hi, rfl⟩⟩

theorem scaleKey_inj_of_spec {role : String} {n : ℕ} (h : (role, n) ∈ roleSpecs) :
    ∀ a b, a < n → b < n → scaleKey role a = scaleKey role b → a = b := by
  obtain ⟨s1, s2, hs⟩ := List.append_of_mem h
  have hnd := specKeys_nodup
  rw [hs] at hnd
  have he : specKeys (s1 ++ (role, n) :: s2) =
      specKeys s1 ++ ((List.range n).map (fun i => scaleKey role i) ++ specKeys s2) := by
    simp [specKeys]
  rw [he] at hnd
  have h1 := (List.nodup_append.mp hnd).2.1
  have h2 := (List.nodup_append.mp h1).1
  intro a b ha hb heq
  exact List.inj_on_of_nodup_map h2 (List.mem_range.mpr ha) (List.mem_range.mpr hb) heq

theorem specKeys_blocks_disjoint (specs : List (String × ℕ))
    (hnd : (specKeys specs).Nodup) {p q : String × ℕ}
    (hp : p ∈ specs) (hq : q ∈ specs) (hne : p ≠ q) {k : String}
    (hkp : k ∈ (List.range p.2).map (fun i => scaleKey p.1 i))
    (hkq : k ∈ (List.range q.2).map (fun i => scaleKey q.1 i)) : False := by
  induction specs with
  | nil => cases hp
  | cons x rest ih =>
      have he : specKeys (x :: rest) =
          (List.range x.2).map (fun i => scaleKey x.1 i) ++ specKeys rest := by
        simp [specKeys]
      rw [he] at hnd
      obtain ⟨hndx, hndr, hdisj⟩ := List.nodup_append.mp hnd
      rcases List.mem_cons.mp hp with rfl | hp'
      · rcases List.mem_cons.mp hq with rfl | hq'
        · exact hne rfl
        · exact hdisj hkp (List.mem_flatMap.mpr ⟨q, hq', hkq⟩)
      · rcases List.mem_cons.mp hq with rfl | hq'
        · exact hdisj hkq (List.mem_flatMap.mpr ⟨p, hp', hkp⟩)
        · exact ih hndr hp' hq'

theorem scaleKey_cross_ne {p q : String × ℕ} (hp : p ∈ roleSpecs) (hq : q ∈ roleSpecs)
    (hne : p ≠ q) {a b : ℕ} (ha : a < p.2) (hb : b < q.2) :
    scaleKey p.1 a ≠ scaleKey q.1 b := by
  intro heq
  exact specKeys_blocks_disjoint roleSpecs specKeys_nodup hp hq hne
    (List.mem_map.mpr ⟨a, List.mem_range.mpr ha, rfl⟩)
    (heq ▸ List.mem_map.mpr ⟨b, List.mem_range.mpr hb, rfl⟩)

set_option maxHeartbeats 400000 in
theorem alook_generateScales_ne (m : Merged) (k : String)
    (hk : k ∉ specKeys roleSpecs) :
    alook (generateScales m).base k = alook m.base k := by
  rw [generateScales_base_eq]
  exact alook_foldSpecs_ne roleSpecs m.base k
    (fun q hq j hj heq => hk (by rw [← heq]; exact scaleKey_mem_specKeys hq hj))

set_option maxHeartbeats 2000000 in
theorem alook_generateScales_gen (m : Merged) {role : String} {n i : ℕ}
    (hmem : (role, n) ∈ roleSpecs) (hi : i < n) :
    alook (generateScales m).base (scaleKey role i) =
      match truthyStr (alook m.base role) with
      | some s => ((generateColorScale s n).get? i).map JSVal.vStr
      | none => alook m.base (scaleKey role i) := by
  obtain ⟨s1, s2, hs⟩ := List.append_of_mem hmem
  have hsub1 : ∀ q ∈ s1, q ∈ roleSpecs := fun q hq => by
    rw [hs]; exact List.mem_append_of_mem_left _ hq
  have hsub2 : ∀ q ∈ s2, q ∈ roleSpecs := fun q hq => by
    rw [hs]; exact List.mem_append_of_mem_right _ (List.mem_cons_of_mem _ hq)
  have hnd := roleSpecs_nodup
  rw [hs] at hnd
  obtain ⟨hnd1, hnd2, hdisj⟩ := List.nodup_append.mp hnd
  have hx2 : (role, n) ∉ s2 := (List.nodup_cons.mp hnd2).1
  have hx1 : (role, n) ∉ s1 := fun hmem1 => hdisj hmem1 (List.mem_cons_self _ _)
  have hrole_pres : alook (foldSpecs s1 m.base) role = alook m.base role :=
    alook_foldSpecs_ne _ _ _ (fun q hq j hj heq =>
      roles_not_specKeys (role, n) hmem
        (by rw [show role = scaleKey q.1 j from heq.symm]
            exact scaleKey_mem_specKeys (hsub1 q hq) hj))
  have hkey_pres1 : alook (foldSpecs s1 m.base) (scaleKey role i) =
      alook m.base (scaleKey role i) :=
    alook_foldSpecs_ne _ _ _ (fun q hq j hj heq =>
      scaleKey_cross_ne (hsub1 q hq) hmem (fun h => hx1 (h ▸ hq)) hj hi heq)
  have hkey_pres2 : ∀ b', alook (foldSpecs s2 b') (scaleKey role i) =
      alook b' (scaleKey role i) :=
    fun b' => alook_foldSpecs_ne _ _ _ (fun q hq j hj heq =>
      scaleKey_cross_ne (hsub2 q hq) hmem (fun h => hx2 (h ▸ hq)) hj hi heq)
  rw [generateScales_base_eq]
  have hfold : foldSpecs roleSpecs m.base =
      foldSpecs s2 (expandRole role n (foldSpecs s1 m.base)) := by
    rw [hs]; simp [foldSpecs, List.foldl_append, List.foldl_cons]
  rw [hfold, hkey_pres2]
  rw [alook_expandRole_hit role n i _ hi (scaleKey_inj_of_spec hmem)]
  rw [hrole_pres]
  cases htr : truthyStr (alook m.base role) with
  | none => exact hkey_pres1
  | some s => rfl

theorem alook_eq_none_of_not_mem_keys (o : List (String × JSVal)) (k : String)
    (h : k ∉ o.map Prod.fst) : alook o k = none := by
  apply alook_eq_none_of_not_any
  rw [List.any_eq_false]
  intro p hp
  simp only [decide_eq_true_eq]
  exact fun hk => h (List.mem_map.mpr ⟨p, hp, hk⟩)

theorem keysND_objSet (o : List (String × JSVal)) (k : String) (v : JSVal)
    (h : keysND o) : keysND (objSet o k v) := by
  unfold objSet keysND
  by_cases hmem : (o.any fun p => p.1 = k) = true
  · rw [if_pos hmem]
    have hkeys : (o.map (fun p => if p.1 = k then (k, v) else p)).map Prod.fst =
        o.map Prod.fst := by
      rw [List.map_map]
      apply List.map_congr_left
      intro p hp
      by_cases hpk : p.1 = k <;> simp [hpk, Function.comp]
    rw [hkeys]
    exact h
  · rw [if_neg hmem, List.map_append]
    refine List.Nodup.append h (List.nodup_singleton k) ?_
    intro x hx hk'
    simp only [List.map_cons, List.map_nil, List.mem_singleton] at hk'
    subst hk'
    apply hmem
    rw [List.any_eq_true]
    obtain ⟨p, hp, hfst⟩ := List.mem_map.mp hx
    exact ⟨p, hp, by simp [hfst]⟩

theorem keysND_objAssign (o es : List (String × JSVal)) (h : keysND o) :
    keysND (objAssign o es) := by
  induction es generalizing o with
  | nil => exact h
  | cons p es ih => exact ih _ (keysND_objSet _ _ _ h)

theorem keysND_writeScale (role : String) (scale : List String) (start : ℕ)
    (o : List (String × JSVal)) (h : keysND o) : keysND (writeScale role scale start o) := by
  induction scale generalizing start o with
  | nil => exact h
  | cons v rest ih => exact ih _ _ (keysND_objSet _ _ _ h)

theorem keysND_expandRole (role : String) (pts : ℕ) (b : List (String × JSVal))
    (h : keysND b) : keysND (expandRole role pts b) := by
  unfold expandRole
  cases ht : truthyStr (alook b role) with
  | none => exact h
  | some s => exact keysND_writeScale _ _ _ _ h

theorem keysND_foldSpecs (specs : List (String × ℕ)) (b : List (String × JSVal))
    (h : keysND b) : keysND (foldSpecs specs b) := by
  induction specs generalizing b with
  | nil => exact h
  | cons q specs ih => exact ih _ (keysND_expandRole _ _ _ h)

theorem keysND_mergeFold (docs : List ThemeDoc) :
    keysND (mergeFold docs).base ∧ keysND (mergeFold docs).properties := by
  rw [mergeFold_eq_foldl]
  have main : ∀ m : Merged, keysND m.base → keysND m.properties →
      keysND (docs.foldl mergeStep m).base ∧ keysND (docs.foldl mergeStep m).properties := by
    induction docs with
    | nil => intro m hb hp; exact ⟨hb, hp⟩
    | cons d docs ih =>
        intro m hb hp
        simp only [List.foldl_cons]
        apply ih
        · cases hdb : d.base with
          | none => simpa [mergeStep, hdb] using hb
          | some es => simpa [mergeStep, hdb] using keysND_objAssign _ es hb
        · cases hdp : d.properties with
          | none => simpa [mergeStep, hdp] using hp
          | some es => simpa [mergeStep, hdp] using keysND_objAssign _ es hp
  exact main _ (by simp [keysND]) (by simp [keysND])

set_option maxHeartbeats 400000 in
theorem keysND_merge (docs : List ThemeDoc) :
    keysND (merge docs).base ∧ keysND (merge docs).properties := by
  obtain ⟨hb, hp⟩ := keysND_mergeFold docs
  constructor
  · rw [merge, generateScales_base_eq]
    exact keysND_foldSpecs _ _ hb
  · rw [merge, generateScales_properties_eq]
    exact hp

theorem lastDef_eq_alook (es : List (String × JSVal)) (k : String) (h : keysND es) :
    lastDef es k = alook es k := by
  induction es with
  | nil => rfl
  | cons p ps ih =>
      obtain ⟨hp, hps⟩ := List.nodup_cons.mp h
      rw [lastDef_cons]
      by_cases hpk : p.1 = k
      · have hnone : lastDef ps k = none := by
          rw [ih hps]
          exact alook_eq_none_of_not_mem_keys ps k (hpk ▸ hp)
        simp [hnone, oor, alook, hpk]
      · rw [if_neg hpk, oor_none_right, ih hps]
        simp [alook, hpk]

theorem lastDef_mem {es : List (String × JSVal)} {k : String} {v : JSVal}
    (h : lastDef es k = some v) : (k, v) ∈ es := by
  induction es with
  | nil => simp [lastDef] at h
  | cons p ps ih =>
      rw [lastDef_cons] at h
      cases hl : lastDef ps k with
      | some w =>
          rw [hl] at h
          simp only [oor, Option.some.injEq] at h
          subst h
          exact List.mem_cons_of_mem _ (ih hl)
      | none =>
          rw [hl] at h
          by_cases hpk : p.1 = k
          · rw [if_pos hpk] at h
            simp only [oor, Option.some.injEq] at h
            subst h
            rw [← hpk, Prod.mk.eta]
            exact List.mem_cons_self _ _
          · rw [if_neg hpk] at h
            simp [oor] at h

theorem alook_mergeFold_base (docs : List ThemeDoc) (k : String) :
    alook (mergeFold docs).base k =
      docs.foldl (fun acc d => oor (lastDef (d.base.getD []) k) acc) none := by
  rw [mergeFold_eq_foldl]
  have main : ∀ m : Merged, alook (docs.foldl mergeStep m).base k =
      docs.foldl (fun acc d => oor (lastDef (d.base.getD []) k) acc) (alook m.base k) := by
    induction docs with
    | nil => intro m; rfl
    | cons d docs ih =>
        intro m
        simp only [List.foldl_cons]
        rw [ih, alook_mergeStep_base]
  rw [main]
  rfl

theorem alook_mergeFold_properties (docs : List ThemeDoc) (k : String) :
    alook (mergeFold docs).properties k =
      docs.foldl (fun acc d => oor (lastDef (d.properties.getD []) k) acc) none := by
  rw [mergeFold_eq_foldl]
  have main : ∀ m : Merged, alook (docs.foldl mergeStep m).properties k =
      docs.foldl (fun acc d => oor (lastDef (d.properties.getD []) k) acc)
        (alook m.properties k) := by
    induction docs with
    | nil => intro m; rfl
    | cons d docs ih =>
        intro m
        simp only [List.foldl_cons]
        rw [ih, alook_mergeStep_properties]
  rw [main]
  rfl

/-- Version of the scale-write characterization taking the role/points pair. -/
theorem alook_generateScales_gen_pair (m : Merged) {q : String × ℕ} {i : ℕ}
    (hq : q ∈ roleSpecs) (hi : i < q.2) :
    alook (generateScales m).base (scaleKey q.1 i) =
      match truthyStr (alook m.base q.1) with
      | some s => ((generateColorScale s q.2).get? i).map JSVal.vStr
      | none => alook m.base (scaleKey q.1 i) := by
  obtain ⟨role, n⟩ := q
  exact alook_generateScales_gen m hq hi

theorem mem_specKeys_iff {k : String} :
    k ∈ specKeys roleSpecs ↔ ∃ q ∈ roleSpecs, ∃ j, j < q.2 ∧ scaleKey q.1 j = k := by
  unfold specKeys
  rw [List.mem_flatMap]
  constructor
  · rintro ⟨q, hq, hk⟩
    obtain ⟨j, hj, hkey⟩ := List.mem_map.mp hk
    exact ⟨q, hq, j, List.mem_range.mp hj, hkey⟩
  · rintro ⟨q, hq, j, hj, hkey⟩
    exact ⟨q, hq, List.mem_map.mpr ⟨j, List.mem_range.mpr hj, hkey⟩⟩

/-- Scale expansion depends on the base object only through its lookups. -/
theorem alook_generateScales_congr (m1 m2 : Merged)
    (h : ∀ k, alook m1.base k = alook m2.base k) :
    ∀ k, alook (generateScales m1).base k = alook (generateScales m2).base k := by
  intro k
  by_cases hk : k ∈ specKeys roleSpecs
  · obtain ⟨q, hq, j, hj, hkey⟩ := mem_specKeys_iff.mp hk
    subst hkey
    rw [alook_generateScales_gen_pair m1 hq hj, alook_generateScales_gen_pair m2 hq hj,
      h q.1, h (scaleKey q.1 j)]
  · rw [alook_generateScales_ne m1 k hk, alook_generateScales_ne m2 k hk, h k]

/-- C3: before scale expansion adds role-index keys, the merged base (and
properties) maps every key to the value of the last document defining it, an
omission leaving earlier values untouched; two documents both defining a key
yield the second one's value; and merging a single duplicate-free document
equals that document followed by scale expansion. -/
theorem merge_lastWins :
    (∀ (docs : List ThemeDoc) (k : String),
        alook (mergeFold docs).base k = specLastBase docs k) ∧
    (∀ (docs : List ThemeDoc) (k : String),
        alook (mergeFold docs).properties k = specLastProps docs k) ∧
    (∀ (A B : ThemeDoc) (k : String) (vA vB : JSVal),
        lastDef (A.base.getD []) k = some vA → lastDef (B.base.getD []) k = some vB →
        alook (mergeFold [A, B]).base k = some vB) ∧
    (∀ A : ThemeDoc, keysND (A.base.getD []) → keysND (A.properties.getD []) →
        (∀ k, alook (merge [A]).base k = alook (generateScales (docAsMerged A)).base k) ∧
        (∀ k, alook (merge [A]).properties k = alook (docAsMerged A).properties k)) := by
  refine ⟨fun docs k => alook_mergeFold_base docs k,
          fun docs k => alook_mergeFold_properties docs k,
          fun A B k vA vB hA hB => ?_, fun A hbase hprops => ?_⟩
  · rw [alook_mergeFold_base]
    simp only [List.foldl_cons, List.foldl_nil]
    rw [hA, hB]
    rfl
  · constructor
    · have hlook : ∀ k, alook (mergeFold [A]).base k = alook (docAsMerged A).base k := by
        intro k
        rw [alook_mergeFold_base]
        simp only [List.foldl_cons, List.foldl_nil]
        rw [oor_none_right, lastDef_eq_alook _ _ hbase]
        rfl
      intro k
      rw [merge]
      exact alook_generateScales_congr _ _ hlook k
    · intro k
      rw [merge, generateScales_properties_eq, alook_mergeFold_properties]
      simp only [List.foldl_cons, List.foldl_nil]
      rw [oor_none_right, lastDef_eq_alook _ _ hprops]
      rfl

/-- Closed witness for C3: two documents overriding key "--x", and the
single-document case for a small concrete document. -/
theorem merge_lastWins_witness :
    alook (mergeFold
        [{ base := some [("--x", JSVal.vStr "1")], properties := none },
         { base := some [("--x", JSVal.vStr "2")], properties := none }]).base "--x" =
      some (JSVal.vStr "2") ∧
    (∀ k, alook (merge
          [({ base := some [("--now-color--primary", JSVal.vStr "61,74,80")],
              properties := none } : ThemeDoc)]).base k =
        alook (generateScales (docAsMerged
          { base := some [("--now-color--primary", JSVal.vStr "61,74,80")],
            properties := none })).base k) :=
  ⟨merge_lastWins.2.2.1 _ _ "--x" (JSVal.vStr "1") (JSVal.vStr "2") (by decide) (by decide),
   (merge_lastWins.2.2.2 _ (by unfold keysND; decide) (by unfold keysND; decide)).1⟩

/-- C5: merging three spec-conformant documents in one call agrees, as a
key-value mapping on both sections, with the pairwise left-to-right fold that
merges the first two documents and then merges that result with the third. -/
theorem merge_pairwise (A B C : ThemeDoc) (_hA : DocOk A) (_hB : DocOk B) (hC : DocOk C) :
    (∀ k, alook (merge [A, B, C]).base k =
        alook (merge [mergedToDoc (merge [A, B]), C]).base k) ∧
    (∀ k, alook (merge [A, B, C]).properties k =
        alook (merge [mergedToDoc (merge [A, B]), C]).properties k) := by
  have hndE := keysND_merge [A, B]
  have hnd12 := keysND_mergeFold [A, B]
  have h3 : ∀ k, alook (mergeFold [A, B, C]).base k =
      oor (lastDef (C.base.getD []) k)
        (oor (lastDef (B.base.getD []) k) (oor (lastDef (A.base.getD []) k) none)) := by
    intro k
    rw [alook_mergeFold_base]
    simp only [List.foldl_cons, List.foldl_nil]
  have h12 : ∀ k, alook (mergeFold [A, B]).base k =
      oor (lastDef (B.base.getD []) k) (oor (lastDef (A.base.getD []) k) none) := by
    intro k
    rw [alook_mergeFold_base]
    simp only [List.foldl_cons, List.foldl_nil]
  have h' : ∀ k, alook (mergeFold [mergedToDoc (merge [A, B]), C]).base k =
      oor (lastDef (C.base.getD []) k) (alook (merge [A, B]).base k) := by
    intro k
    rw [alook_mergeFold_base]
    simp only [List.foldl_cons, List.foldl_nil]
    rw [oor_none_right]
    have hget : (mergedToDoc (merge [A, B])).base.getD [] = (merge [A, B]).base := rfl
    rw [hget, lastDef_eq_alook _ _ hndE.1]
  have hE12ne : ∀ k, k ∉ specKeys roleSpecs →
      alook (merge [A, B]).base k = alook (mergeFold [A, B]).base k := by
    intro k hk
    rw [merge]
    exact alook_generateScales_ne _ _ hk
  have hCval : ∀ q : String × ℕ, q ∈ roleSpecs → ∀ v,
      lastDef (C.base.getD []) q.1 = some v → ∃ s, v = JSVal.vStr s ∧ s ≠ "" := by
    intro q hq v hv
    rcases hC _ (lastDef_mem hv) with hok | hdark
    · cases v with
      | vStr s => exact ⟨s, rfl, by simpa [okVal, bne_iff_ne] using hok⟩
      | vBool bb => simp [okVal] at hok
      | vNum qq => simp [okVal] at hok
    · exact absurd hdark (roles_ne_isDark q hq)
  constructor
  · intro k
    by_cases hk : k ∈ specKeys roleSpecs
    · obtain ⟨q, hq, j, hj, hkey⟩ := mem_specKeys_iff.mp hk
      subst hkey
      rw [merge, merge, alook_generateScales_gen_pair (mergeFold [A, B, C]) hq hj,
        alook_generateScales_gen_pair (mergeFold [mergedToDoc (merge [A, B]), C]) hq hj]
      have hrolene : q.1 ∉ specKeys roleSpecs := roles_not_specKeys q hq
      have hrole : alook (mergeFold [mergedToDoc (merge [A, B]), C]).base q.1 =
          alook (mergeFold [A, B, C]).base q.1 := by
        rw [h' q.1, hE12ne q.1 hrolene, h12 q.1, h3 q.1]
      rw [hrole]
      cases htr : truthyStr (alook (mergeFold [A, B, C]).base q.1) with
      | some s => rfl
      | none =>
          have hdC : lastDef (C.base.getD []) q.1 = none := by
            cases hdc : lastDef (C.base.getD []) q.1 with
            | none => rfl
            | some v =>
                obtain ⟨s, rfl, hs⟩ := hCval q hq v hdc
                have hm3 : alook (mergeFold [A, B, C]).base q.1 = some (JSVal.vStr s) := by
                  rw [h3 q.1, hdc]
                  rfl
                rw [hm3] at htr
                simp [truthyStr, hs] at htr
          have hm12role : truthyStr (alook (mergeFold [A, B]).base q.1) = none := by
            have heq : alook (mergeFold [A, B, C]).base q.1 =
                alook (mergeFold [A, B]).base q.1 := by
              rw [h3 q.1, h12 q.1, hdC]
              rfl
            rw [← heq]
            exact htr
          have hE12 : alook (merge [A, B]).base (scaleKey q.1 j) =
              alook (mergeFold [A, B]).base (scaleKey q.1 j) := by
            rw [merge, alook_generateScales_gen_pair (mergeFold [A, B]) hq hj, hm12role]
          rw [h3 (scaleKey q.1 j), h' (scaleKey q.1 j), hE12, h12 (scaleKey q.1 j)]
    · rw [merge, merge, alook_generateScales_ne _ _ hk, alook_generateScales_ne _ _ hk]
      rw [h3 k, h' k, hE12ne k hk, h12 k]
  · intro k
    rw [merge, merge, generateScales_properties_eq, generateScales_properties_eq,
      alook_mergeFold_properties, alook_mergeFold_properties]
    simp only [List.foldl_cons, List.foldl_nil]
    have hget : (mergedToDoc (merge [A, B])).properties.getD [] = (merge [A, B]).properties :=
      rfl
    have hp : (merge [A, B]).properties = (mergeFold [A, B]).properties := by
      rw [merge, generateScales_properties_eq]
    rw [hget, hp, lastDef_eq_alook _ _ hnd12.2, alook_mergeFold_properties]
    simp only [List.foldl_cons, List.foldl_nil, oor_none_right]

/-- Closed witness for C5 at three small concrete documents and the key of the
first generated primary scale entry. -/
theorem merge_pairwise_witness :
    alook (merge
        [{ base := some [("--now-color--primary", JSVal.vStr "61,74,80")], properties := none },
         { base := some [("--now-color--neutral", JSVal.vStr "10,20,30")], properties := none },
         { base := some [("--now-color--primary", JSVal.vStr "1,2,3"), ("isDark", JSVal.vBool true)],
           properties := none }]).base "--now-color--primary-0" =
      alook (merge
        [mergedToDoc (merge
          [{ base := some [("--now-color--primary", JSVal.vStr "61,74,80")], properties := none },
           { base := some [("--now-color--neutral", JSVal.vStr "10,20,30")], properties := none }]),
         { base := some [("--now-color--primary", JSVal.vStr "1,2,3"), ("isDark", JSVal.vBool true)],
           properties := none }]).base "--now-color--primary-0" :=
  (merge_pairwise _ _ _ (by unfold DocOk; decide) (by unfold DocOk; decide)
    (by unfold DocOk; decide)).1 "--now-color--primary-0"

theorem fourPointColors_nodup : fourPointColors.Nodup := by decide

theorem neutral_not_four : "--now-color--neutral" ∉ fourPointColors := by decide

theorem objSet_append_of_fresh (o : List (String × JSVal)) (k : String) (v : JSVal)
    (h : k ∉ o.map Prod.fst) : objSet o k v = o ++ [(k, v)] := by
  unfold objSet
  rw [if_neg]
  intro ha
  obtain ⟨p, hp, hpk⟩ := List.any_eq_true.mp ha
  exact h (List.mem_map.mpr ⟨p, hp, of_decide_eq_true hpk⟩)

theorem scaleEntries_length (role : String) (scale : List String) (start : ℕ) :
    (scaleEntries role scale start).length = scale.length := by
  induction scale generalizing start with
  | nil => rfl
  | cons v rest ih => simp [scaleEntries, ih]

theorem scaleEntries_keys (role : String) (scale : List String) (start : ℕ) :
    (scaleEntries role scale start).map Prod.fst =
      (List.range scale.length).map (fun j => scaleKey role (start + j)) := by
  induction scale generalizing start with
  | nil => rfl
  | cons v rest ih =>
      simp only [scaleEntries, List.map_cons, List.length_cons, List.range_succ_eq_map,
        List.map_map, ih]
      congr 1
      apply List.map_congr_left
      intro j _
      show scaleKey role (start + 1 + j) = scaleKey role (start + (j + 1))
      rw [show start + 1 + j = start + (j + 1) from by omega]

theorem writeScale_append (role : String) (scale : List String) (start : ℕ)
    (o : List (String × JSVal))
    (hfresh : ∀ j, j < scale.length → scaleKey role (start + j) ∉ o.map Prod.fst)
    (hinj : ∀ a b, a < start + scale.length → b < start + scale.length →
        scaleKey role a = scaleKey role b → a = b) :
    writeScale role scale start o = o ++ scaleEntries role scale start := by
  induction scale generalizing start o with
  | nil => simp [writeScale, scaleEntries]
  | cons v rest ih =>
      rw [writeScale]
      rw [objSet_append_of_fresh o (scaleKey role start) (JSVal.vStr v)
        (by have h0 := hfresh 0 (by simp); simpa using h0)]
      rw [ih (start + 1) (o ++ [(scaleKey role start, JSVal.vStr v)])
        (fun j hj => ?_) (fun a b ha hb => ?_)]
      · rw [List.append_assoc]
        rfl
      · rw [List.map_append]
        intro hmem
        rcases List.mem_append.mp hmem with hmem1 | hmem2
        · have hf := hfresh (j + 1) (by simp only [List.length_cons]; omega)
          apply hf
          rw [show start + (j + 1) = start + 1 + j from by omega]
          exact hmem1
        · simp only [List.map_cons, List.map_nil, List.mem_singleton] at hmem2
          have := hinj (start + 1 + j) start
            (by simp only [List.length_cons]; omega)
            (by simp only [List.length_cons]; omega) hmem2
          omega
      · exact hinj a b (by simp only [List.length_cons] at ha ⊢; omega)
          (by simp only [List.length_cons] at hb ⊢; omega)

theorem foldSpecs_skip (specs : List (String × ℕ)) (b : List (String × JSVal))
    (h : ∀ q ∈ specs, truthyStr (alook b q.1) = none) : foldSpecs specs b = b := by
  induction specs with
  | nil => rfl
  | cons q specs ih =>
      have step : foldSpecs (q :: specs) b = foldSpecs specs (expandRole q.1 q.2 b) := rfl
      have hid : expandRole q.1 q.2 b = b := by
        unfold expandRole
        rw [h q (List.mem_cons_self _ _)]
      rw [step, hid]
      exact ih (fun q' hq' => h q' (List.mem_cons_of_mem _ hq'))

theorem generateScales_skip (m : Merged)
    (h : ∀ q ∈ roleSpecs, truthyStr (alook m.base q.1) = none) :
    generateScales m = m := by
  rw [generateScales_def, foldSpecs_skip _ _ h]

theorem roleR_props :
    ∀ roleR ∈ fourPointColors, (roleR, 4) ∈ roleSpecs ∧ roleR ∉ specKeys roleSpecs :=
  fun roleR hm => ⟨fourPoint_sub_roleSpecs roleR hm,
    roles_not_specKeys (roleR, 4) (fourPoint_sub_roleSpecs roleR hm)⟩

theorem expandScales_concrete (s1 s2 roleR : String) (props : List (String × JSVal))
    (hmemR : roleR ∈ fourPointColors) (hs1 : s1 ≠ "") (hs2 : s2 ≠ "") :
    (generateScales ⟨[("--now-color--neutral", JSVal.vStr s1), (roleR, JSVal.vStr s2)],
        props⟩).base
      = ([("--now-color--neutral", JSVal.vStr s1), (roleR, JSVal.vStr s2)]
          ++ scaleEntries "--now-color--neutral" (generateColorScale s1 22) 0)
        ++ scaleEntries roleR (generateColorScale s2 4) 0 := by
  have hRspec : (roleR, 4) ∈ roleSpecs := (roleR_props roleR hmemR).1
  have hRnk : roleR ∉ specKeys roleSpecs := (roleR_props roleR hmemR).2
  have hNnk : "--now-color--neutral" ∉ specKeys roleSpecs :=
    roles_not_specKeys _ neutral_mem_roleSpecs
  have hneR : roleR ≠ "--now-color--neutral" := fun h => neutral_not_four (h ▸ hmemR)
  set base0 : List (String × JSVal) :=
    [("--now-color--neutral", JSVal.vStr s1), (roleR, JSVal.vStr s2)] with hbase0
  -- step 1: the neutral 22-point expansion appends its entries
  have hlook1 : alook base0 "--now-color--neutral" = some (JSVal.vStr s1) := by
    simp [hbase0, alook]
  have hstep1 : expandRole "--now-color--neutral" 22 base0 =
      base0 ++ scaleEntries "--now-color--neutral" (generateColorScale s1 22) 0 := by
    unfold expandRole
    rw [hlook1]
    have htr : truthyStr (some (JSVal.vStr s1)) = some s1 := by simp [truthyStr, hs1]
    rw [htr]
    apply writeScale_append
    · intro j hj
      rw [generateColorScale_len] at hj
      rw [Nat.zero_add]
      have hmemk : scaleKey "--now-color--neutral" j ∈ specKeys roleSpecs :=
        scaleKey_mem_specKeys neutral_mem_roleSpecs hj
      simp only [hbase0, List.map_cons, List.map_nil]
      intro hmem
      simp only [List.mem_cons, List.not_mem_nil, or_false] at hmem
      rcases hmem with h1 | h2
      · exact hNnk (h1 ▸ hmemk)
      · exact hRnk (h2 ▸ hmemk)
    · intro a b ha hb heq
      rw [Nat.zero_add, generateColorScale_len] at ha hb
      exact scaleKey_inj_of_spec neutral_mem_roleSpecs a b ha hb heq
  rw [generateScales_base_eq]
  obtain ⟨f1, f2, hf⟩ := List.append_of_mem hmemR
  have hf1sub : ∀ r ∈ f1, r ∈ fourPointColors := fun r hr => by
    rw [hf]; exact List.mem_append_of_mem_left _ hr
  have hf2sub : ∀ r ∈ f2, r ∈ fourPointColors := fun r hr => by
    rw [hf]; exact List.mem_append_of_mem_right _ (List.mem_cons_of_mem _ hr)
  have hnd := fourPointColors_nodup
  rw [hf] at hnd
  obtain ⟨hnd1, hnd2, hdisj⟩ := List.nodup_append.mp hnd
  have hR2 : roleR ∉ f2 := (List.nodup_cons.mp hnd2).1
  have hR1 : roleR ∉ f1 := fun hmem1 => hdisj hmem1 (List.mem_cons_self _ _)
  have hrs : foldSpecs roleSpecs base0 =
      foldSpecs (f2.map (fun r => (r, 4)))
        (expandRole roleR 4
          (foldSpecs (f1.map (fun r => (r, 4)))
            (expandRole "--now-color--neutral" 22 base0))) := by
    rw [show roleSpecs = ("--now-color--neutral", 22) :: fourPointColors.map (fun r => (r, 4))
      from rfl, hf]
    simp [foldSpecs, List.map_append, List.foldl_append]
  have hkeysB1 : ∀ r ∈ fourPointColors, r ≠ roleR →
      r ∉ (base0 ++
        scaleEntries "--now-color--neutral" (generateColorScale s1 22) 0).map Prod.fst := by
    intro r hr hrne
    rw [List.map_append]
    intro hmem
    rcases List.mem_append.mp hmem with h1 | h2
    · simp only [hbase0, List.map_cons, List.map_nil, List.mem_cons, List.not_mem_nil,
        or_false] at h1
      rcases h1 with h1 | h1
      · exact neutral_not_four (h1 ▸ hr)
      · exact hrne h1
    · rw [scaleEntries_keys] at h2
      obtain ⟨j, hj, hkeq⟩ := List.mem_map.mp h2
      rw [generateColorScale_len] at hj
      apply roles_not_specKeys (r, 4) (fourPoint_sub_roleSpecs r hr)
      rw [← hkeq]
      exact scaleKey_mem_specKeys neutral_mem_roleSpecs
        (by rw [Nat.zero_add]; exact List.mem_range.mp hj)
  rw [hrs, hstep1]
  rw [foldSpecs_skip (f1.map (fun r => (r, 4))) _ (fun q hq => by
    obtain ⟨r, hr, rfl⟩ := List.mem_map.mp hq
    rw [alook_eq_none_of_not_mem_keys _ _
      (hkeysB1 r (hf1sub r hr) (fun h => hR1 (h ▸ hr)))]
    rfl)]
  have hlookR : alook (base0 ++
      scaleEntries "--now-color--neutral" (generateColorScale s1 22) 0) roleR =
      some (JSVal.vStr s2) := by
    rw [alook_append]
    have hb0 : alook base0 roleR = some (JSVal.vStr s2) := by
      have hne' : ¬ "--now-color--neutral" = roleR := fun h => hneR h.symm
      simp [hbase0, alook, hne']
    rw [hb0]
    rfl
  have hstep2 : expandRole roleR 4 (base0 ++
      scaleEntries "--now-color--neutral" (generateColorScale s1 22) 0) =
      (base0 ++ scaleEntries "--now-color--neutral" (generateColorScale s1 22) 0)
        ++ scaleEntries roleR (generateColorScale s2 4) 0 := by
    unfold expandRole
    rw [hlookR]
    rw [show truthyStr (some (JSVal.vStr s2)) = some s2 from by simp [truthyStr, hs2]]
    apply writeScale_append
    · intro j hj
      rw [generateColorScale_len] at hj
      rw [Nat.zero_add, List.map_append]
      have hmemk : scaleKey roleR j ∈ specKeys roleSpecs := scaleKey_mem_specKeys hRspec hj
      intro hmem
      rcases List.mem_append.mp hmem with h1 | h2
      · simp only [hbase0, List.map_cons, List.map_nil, List.mem_cons, List.not_mem_nil,
          or_false] at h1
        rcases h1 with h1 | h1
        · exact hNnk (h1 ▸ hmemk)
        · exact hRnk (h1 ▸ hmemk)
      · rw [scaleEntries_keys] at h2
        obtain ⟨j2, hj2, hkeq⟩ := List.mem_map.mp h2
        rw [generateColorScale_len] at hj2
        refine absurd hkeq (scaleKey_cross_ne (p := ("--now-color--neutral", 22))
          (q := (roleR, 4)) neutral_mem_roleSpecs hRspec ?_ ?_ hj)
        · intro h
          exact hneR (congrArg Prod.fst h).symm
        · rw [Nat.zero_add]
          exact List.mem_range.mp hj2
    · intro a b ha hb heq
      rw [Nat.zero_add, generateColorScale_len] at ha hb
      exact scaleKey_inj_of_spec hRspec a b ha hb heq
  rw [hstep2]
  apply foldSpecs_skip
  intro q hq
  obtain ⟨r, hr, rfl⟩ := List.mem_map.mp hq
  rw [alook_eq_none_of_not_mem_keys]
  · rfl
  · rw [List.map_append]
    intro hmem
    rcases List.mem_append.mp hmem with h1 | h2
    · exact hkeysB1 r (hf2sub r hr) (fun h => hR2 (h ▸ hr)) h1
    · rw [scaleEntries_keys] at h2
      obtain ⟨j, hj, hkeq⟩ := List.mem_map.mp h2
      rw [generateColorScale_len] at hj
      apply roles_not_specKeys (r, 4) (fourPoint_sub_roleSpecs r (hf2sub r hr))
      rw [← hkeq]
      exact scaleKey_mem_specKeys hRspec (by rw [Nat.zero_add]; exact List.mem_range.mp hj)


/-- C7: a document whose base defines exactly the neutral role and one
recognized 4-point role, both with truthy string values (any well-formed
ColorTriple string is such), gains from scale expansion exactly 22 + 4 = 26
new keys — the neutral entries 0..21 followed by the 4-point role's entries
0..3 — while a base in which no role carries a truthy string value is left
entirely unchanged, silently and without error. -/
theorem expandScales_count :
    (∀ (s1 s2 roleR : String) (props : List (String × JSVal)),
        roleR ∈ fourPointColors → s1 ≠ "" → s2 ≠ "" →
        (generateScales ⟨[("--now-color--neutral", JSVal.vStr s1), (roleR, JSVal.vStr s2)],
            props⟩).base.map Prod.fst =
          ["--now-color--neutral", roleR]
            ++ (List.range 22).map (fun j => scaleKey "--now-color--neutral" j)
            ++ (List.range 4).map (fun j => scaleKey roleR j) ∧
        (generateScales ⟨[("--now-color--neutral", JSVal.vStr s1), (roleR, JSVal.vStr s2)],
            props⟩).base.length = 2 + (22 + 4)) ∧
    (∀ m : Merged, (∀ q ∈ roleSpecs, truthyStr (alook m.base q.1) = none) →
        generateScales m = m) := by
  refine ⟨fun s1 s2 roleR props hmemR hs1 hs2 => ⟨?_, ?_⟩, generateScales_skip⟩
  · rw [expandScales_concrete s1 s2 roleR props hmemR hs1 hs2]
    rw [List.map_append, List.map_append, scaleEntries_keys, scaleEntries_keys,
      generateColorScale_len, generateColorScale_len]
    simp [Nat.zero_add]
  · rw [expandScales_concrete s1 s2 roleR props hmemR hs1 hs2]
    simp [List.length_append, scaleEntries_length, generateColorScale_len]

/-- Closed witness for C7: the primary role with concrete colors, and a
marker-only base left unchanged. -/
theorem expandScales_count_witness :
    (generateScales ⟨[("--now-color--neutral", JSVal.vStr "10,20,30"),
        ("--now-color--primary", JSVal.vStr "61,74,80")], []⟩).base.length = 2 + (22 + 4) ∧
    generateScales ⟨[("isDark", JSVal.vBool true)], []⟩ =
      (⟨[("isDark", JSVal.vBool true)], []⟩ : Merged) :=
  ⟨(expandScales_count.1 "10,20,30" "61,74,80" "--now-color--primary" [] (by decide)
      (by decide) (by decide)).2,
   expandScales_count.2 _ (by decide)⟩

/-- C10: for every input base string (well-formed or not) and every point
count, `generateColorScale` returns exactly `points` entries: the 4-point
branch pushes four entries and the general branch pushes one per index. -/
theorem generateColorScale_length (baseColor : String) (points : ℕ) :
    (generateColorScale baseColor points).length = points :=
  generateColorScale_len baseColor points

/-- C8: `resolveValue` leaves every non-string value unchanged, rewrites a
string beginning with the two-character prefix "--" into the `var(...)`
property reference wrapping that exact name, and returns every other string
unchanged; includes the three concrete examples. -/
theorem resolveValue_correct :
    (∀ s : String, resolveValue (JSVal.vStr s) =
      (if jsStartsWith s "--" then JSVal.vStr ("var(" ++ s ++ ")") else JSVal.vStr s)) ∧
    (∀ b : Bool, resolveValue (JSVal.vBool b) = JSVal.vBool b) ∧
    (∀ q : ℚ, resolveValue (JSVal.vNum q) = JSVal.vNum q) ∧
    resolveValue (JSVal.vStr "--now-color--neutral-0") =
      JSVal.vStr "var(--now-color--neutral-0)" ∧
    resolveValue (JSVal.vStr "16px") = JSVal.vStr "16px" ∧
    resolveValue (JSVal.vNum 42) = JSVal.vNum 42 :=
  ⟨fun _ => rfl, fun _ => rfl, fun _ => rfl, rfl, rfl, rfl⟩

/-- C1: on integer channels in [0,255] the 4-point scale is the 4-element
sequence whose index 0 lightens each channel 25% toward white, index 1 is the
exact unmodified input, index 2 multiplies each channel by 0.80 and index 3 by
0.65, each rounded to the nearest integer (half up, as Math.round). -/
theorem fourPointScale_correct (r g b : ℤ)
    (_hr0 : 0 ≤ r) (_hr1 : r ≤ 255) (_hg0 : 0 ≤ g) (_hg1 : g ≤ 255)
    (_hb0 : 0 ≤ b) (_hb1 : b ≤ 255) :
    scaleFromChannels (some r) (some g) (some b) 4 =
      [ toString (jround ((r : Frac) + (255 - (r : Frac)) * (25 / 100))) ++ "," ++
          toString (jround ((g : Frac) + (255 - (g : Frac)) * (25 / 100))) ++ "," ++
          toString (jround ((b : Frac) + (255 - (b : Frac)) * (25 / 100))),
        toString r ++ "," ++ toString g ++ "," ++ toString b,
        toString (jround ((r : Frac) * (80 / 100))) ++ "," ++
          toString (jround ((g : Frac) * (80 / 100))) ++ "," ++
          toString (jround ((b : Frac) * (80 / 100))),
        toString (jround ((r : Frac) * (65 / 100))) ++ "," ++
          toString (jround ((g : Frac) * (65 / 100))) ++ "," ++
          toString (jround ((b : Frac) * (65 / 100))) ] := rfl

/-- Closed witness for C1 at the concrete base color (61,74,80). -/
theorem fourPointScale_correct_witness :
    scaleFromChannels (some 61) (some 74) (some 80) 4 =
      [ toString (jround ((61 : Frac) + (255 - (61 : Frac)) * (25 / 100))) ++ "," ++
          toString (jround ((74 : Frac) + (255 - (74 : Frac)) * (25 / 100))) ++ "," ++
          toString (jround ((80 : Frac) + (255 - (80 : Frac)) * (25 / 100))),
        toString (61 : ℤ) ++ "," ++ toString (74 : ℤ) ++ "," ++ toString (80 : ℤ),
        toString (jround ((61 : Frac) * (80 / 100))) ++ "," ++
          toString (jround ((74 : Frac) * (80 / 100))) ++ "," ++
          toString (jround ((80 : Frac) * (80 / 100))),
        toString (jround ((61 : Frac) * (65 / 100))) ++ "," ++
          toString (jround ((74 : Frac) * (65 / 100))) ++ "," ++
          toString (jround ((80 : Frac) * (65 / 100))) ] :=
  fourPointScale_correct 61 74 80 (by decide) (by decide) (by decide) (by decide)
    (by decide) (by decide)

/-- C2: on integer channels in [0,255] the 22-point scale has exactly 22
entries, entry 0 is pure white and entry 21 pure black, and every interior
entry i interpolates with t = i/21: below the midpoint linearly from white to
the base, otherwise linearly from the base to black, per channel with
Math.round. -/
theorem neutralScale_correct (r g b : ℤ)
    (_hr0 : 0 ≤ r) (_hr1 : r ≤ 255) (_hg0 : 0 ≤ g) (_hg1 : g ≤ 255)
    (_hb0 : 0 ≤ b) (_hb1 : b ≤ 255) :
    (scaleFromChannels (some r) (some g) (some b) 22).length = 22 ∧
    (scaleFromChannels (some r) (some g) (some b) 22).get? 0 = some "255,255,255" ∧
    (scaleFromChannels (some r) (some g) (some b) 22).get? 21 = some "0,0,0" ∧
    ∀ i : ℕ, 1 ≤ i → i ≤ 20 →
      (scaleFromChannels (some r) (some g) (some b) 22).get? i =
        some (if ((i : Frac) / 21) < (1 / 2 : Frac) then
          toString (jround (255 + ((r : Frac) - 255) * (((i : Frac) / 21) / (1 / 2)))) ++ "," ++
            toString (jround (255 + ((g : Frac) - 255) * (((i : Frac) / 21) / (1 / 2)))) ++ "," ++
            toString (jround (255 + ((b : Frac) - 255) * (((i : Frac) / 21) / (1 / 2))))
        else
          toString (jround ((r : Frac) * (1 - (((i : Frac) / 21) - 1 / 2) / (1 / 2)))) ++ "," ++
            toString (jround ((g : Frac) * (1 - (((i : Frac) / 21) - 1 / 2) / (1 / 2)))) ++ "," ++
            toString (jround ((b : Frac) * (1 - (((i : Frac) / 21) - 1 / 2) / (1 / 2))))) := by
  refine ⟨rfl, rfl, rfl, ?_⟩
  intro i h1 h2
  interval_cases i <;> rfl

set_option maxHeartbeats 1000000 in
/-- Closed witness for C2 at the base color (61,74,80) and interior index 10. -/
theorem neutralScale_correct_witness :
    (scaleFromChannels (some 61) (some 74) (some 80) 22).length = 22 ∧
    (scaleFromChannels (some 61) (some 74) (some 80) 22).get? 0 = some "255,255,255" ∧
    (scaleFromChannels (some 61) (some 74) (some 80) 22).get? 21 = some "0,0,0" ∧
    (scaleFromChannels (some 61) (some 74) (some 80) 22).get? 10 =
      some (if ((10 : ℕ) : Frac) / 21 < (1 / 2 : Frac) then
        toString (jround (255 + (((61 : ℤ) : Frac) - 255) * ((((10 : ℕ) : Frac) / 21) / (1 / 2)))) ++ "," ++
          toString (jround (255 + (((74 : ℤ) : Frac) - 255) * ((((10 : ℕ) : Frac) / 21) / (1 / 2)))) ++ "," ++
          toString (jround (255 + (((80 : ℤ) : Frac) - 255) * ((((10 : ℕ) : Frac) / 21) / (1 / 2))))
      else
        toString (jround (((61 : ℤ) : Frac) * (1 - ((((10 : ℕ) : Frac) / 21) - 1 / 2) / (1 / 2)))) ++ "," ++
          toString (jround (((74 : ℤ) : Frac) * (1 - ((((10 : ℕ) : Frac) / 21) - 1 / 2) / (1 / 2)))) ++ "," ++
          toString (jround (((80 : ℤ) : Frac) * (1 - ((((10 : ℕ) : Frac) / 21) - 1 / 2) / (1 / 2))))) := by
  obtain ⟨l, z, bl, inner⟩ := neutralScale_correct 61 74 80 (by decide) (by decide) (by decide)
    (by decide) (by decide) (by decide)
  exact ⟨l, z, bl, inner 10 (by decide) (by decide)⟩

set_option maxHeartbeats 1000000 in
/-- C4 counterexample: for the input base entry "--now-color--primary": "61,74,80"
the generated entry at key "--now-color--primary-0" is "110,119,124", not the
"144,152,155" the claim states (the lightening formula gives
round(61 + 194 * 0.25) = 110 for the red channel). -/
theorem merge_example_counterexample :
    alook (merge [{ base := some [("--now-color--primary", JSVal.vStr "61,74,80")],
                    properties := none }]).base "--now-color--primary-0" =
      some (JSVal.vStr "110,119,124") ∧
    some (JSVal.vStr "110,119,124") ≠ some (JSVal.vStr "144,152,155") := by
  exact ⟨by decide, by decide⟩

set_option maxHeartbeats 4000000 in
/-- C4 amended: the generated 4-point scale for "61,74,80" is
["110,119,124", "61,74,80", "49,59,64", "40,48,52"], stored at the keys
"--now-color--primary-0" through "--now-color--primary-3". -/
theorem merge_example_amended :
    alook (merge [{ base := some [("--now-color--primary", JSVal.vStr "61,74,80")],
                    properties := none }]).base "--now-color--primary-0" =
      some (JSVal.vStr "110,119,124") ∧
    alook (merge [{ base := some [("--now-color--primary", JSVal.vStr "61,74,80")],
                    properties := none }]).base "--now-color--primary-1" =
      some (JSVal.vStr "61,74,80") ∧
    alook (merge [{ base := some [("--now-color--primary", JSVal.vStr "61,74,80")],
                    properties := none }]).base "--now-color--primary-2" =
      some (JSVal.vStr "49,59,64") ∧
    alook (merge [{ base := some [("--now-color--primary", JSVal.vStr "61,74,80")],
                    properties := none }]).base "--now-color--primary-3" =
      some (JSVal.vStr "40,48,52") := by
  exact ⟨by decide, by decide, by decide, by decide⟩

/-- C9: `loadTheme` hands `merge` exactly three documents, in the order
variant colors, then shared shape-and-form, then shared typography; by the
last-wins fold, both shared documents take precedence over the colors document
on any key they also define, in both sections. -/
theorem loadTheme_order (L : String → ThemeDoc) (themeName variant : String) :
    loadTheme L themeName variant =
      merge [ L ("themes/" ++ themeName ++ "/variants/" ++ variant ++ "/colors.json"),
              L ("themes/" ++ themeName ++ "/shape-and-form.json"),
              L ("themes/" ++ themeName ++ "/typography.json") ] ∧
    (∀ (colors shape typo : ThemeDoc) (k : String),
      alook (mergeFold [colors, shape, typo]).base k =
        oor (lastDef (typo.base.getD []) k)
          (oor (lastDef (shape.base.getD []) k) (lastDef (colors.base.getD []) k))) ∧
    (∀ (colors shape typo : ThemeDoc) (k : String),
      alook (mergeFold [colors, shape, typo]).properties k =
        oor (lastDef (typo.properties.getD []) k)
          (oor (lastDef (shape.properties.getD []) k)
            (lastDef (colors.properties.getD []) k))) := by
  refine ⟨rfl, fun c s t k => ?_, fun c s t k => ?_⟩
  · rw [alook_mergeFold_base]
    simp only [List.foldl_cons, List.foldl_nil]
    rw [oor_none_right]
  · rw [alook_mergeFold_properties]
    simp only [List.foldl_cons, List.foldl_nil]
    rw [oor_none_right]

theorem validate_doc_chr (d : ThemeDoc) : (validate (ThemeInput.doc d)).valid = false ↔
      ((d.base = none ∧ d.properties = none) ∨
       (∃ p ∈ d.base.getD [], jsStartsWith p.1 "--" = false ∧ p.1 ≠ "isDark") ∨
       (∃ p ∈ d.properties.getD [], jsStartsWith p.1 "--" = false)) := by
  have herr : (validate (ThemeInput.doc d)).errors =
      (if d.base.isNone && d.properties.isNone then
        ["Theme must have either \"base\" or \"properties\" section"] else []) ++
      (d.base.getD []).filterMap (fun p =>
        if !jsStartsWith p.1 "--" && p.1 != "isDark" then
          some ("Base key \"" ++ p.1 ++ "\" should start with --") else none) ++
      (d.properties.getD []).filterMap (fun p =>
        if !jsStartsWith p.1 "--" then
          some ("Property key \"" ++ p.1 ++ "\" should start with --") else none) := rfl
  have hval : (validate (ThemeInput.doc d)).valid
      = (validate (ThemeInput.doc d)).errors.isEmpty := rfl
  rw [Bool.eq_false_iff]
  constructor
  · intro hne
    by_contra hD
    push_neg at hD
    obtain ⟨hS, hB, hP⟩ := hD
    apply hne
    rw [hval, List.isEmpty_iff, herr]
    have e1 : (if d.base.isNone && d.properties.isNone then
        ["Theme must have either \"base\" or \"properties\" section"] else []) = [] := by
      cases hb : d.base with
      | none =>
          cases hp : d.properties with
          | none => exact absurd hp (hS hb)
          | some es => simp [hb, hp]
      | some es => simp [hb]
    have e2 : (d.base.getD []).filterMap (fun p =>
        if !jsStartsWith p.1 "--" && p.1 != "isDark" then
          some ("Base key \"" ++ p.1 ++ "\" should start with --") else none) = [] := by
      rw [List.filterMap_eq_nil_iff]
      intro p hp
      rw [if_neg]
      intro hc
      rw [Bool.and_eq_true, Bool.not_eq_true', bne_iff_ne] at hc
      exact hc.2 (hB p hp hc.1)
    have e3 : (d.properties.getD []).filterMap (fun p =>
        if !jsStartsWith p.1 "--" then
          some ("Property key \"" ++ p.1 ++ "\" should start with --") else none) = [] := by
      rw [List.filterMap_eq_nil_iff]
      intro p hp
      rw [if_neg]
      intro hc
      rw [Bool.not_eq_true'] at hc
      exact hP p hp hc
    rw [e1, e2, e3]
    rfl
  · intro hD htrue
    rw [hval, List.isEmpty_iff, herr] at htrue
    obtain ⟨h12, h3⟩ := List.append_eq_nil.mp htrue
    obtain ⟨h1, h2⟩ := List.append_eq_nil.mp h12
    rcases hD with ⟨hb, hp⟩ | ⟨p, hp, hsw, hdark⟩ | ⟨p, hp, hsw⟩
    · rw [if_pos (by rw [hb, hp]; rfl)] at h1
      exact List.cons_ne_nil _ _ h1
    · have := (List.filterMap_eq_nil_iff.mp h2) p hp
      rw [if_pos (by rw [Bool.and_eq_true, Bool.not_eq_true', bne_iff_ne]
                     exact ⟨hsw, hdark⟩)] at this
      exact Option.some_ne_none _ this
    · have := (List.filterMap_eq_nil_iff.mp h3) p hp
      rw [if_pos (by rw [Bool.not_eq_true']; exact hsw)] at this
      exact Option.some_ne_none _ this

/-- C6: `validate` always returns a report (never throws); `valid` is true iff
the error list is empty; an error is recorded exactly when the input is absent
or not an object, when neither section is present, when a base key other than
the `isDark` escape marker lacks the "--" prefix, or when a properties key
lacks it; multiple violations accumulate; and the two concrete spec examples
hold, a two-violation document yielding two errors. -/
theorem validate_correct :
    (∀ inp : ThemeInput, (validate inp).valid = true ↔ (validate inp).errors = []) ∧
    (∀ inp : ThemeInput, (validate inp).valid = false ↔
      (match inp with
       | ThemeInput.doc d =>
           (d.base = none ∧ d.properties = none) ∨
           (∃ p ∈ d.base.getD [], jsStartsWith p.1 "--" = false ∧ p.1 ≠ "isDark") ∨
           (∃ p ∈ d.properties.getD [], jsStartsWith p.1 "--" = false)
       | _ => True)) ∧
    (validate (ThemeInput.doc { base := some [("bad", JSVal.vStr "1,2,3")], properties := none }) =
      { valid := false, errors := ["Base key \"bad\" should start with --"] }) ∧
    (validate (ThemeInput.doc { base := some [("--ok", JSVal.vStr "1,2,3")],
                                properties := none })).valid = true ∧
    (validate (ThemeInput.doc
        { base := some [("bad", JSVal.vStr "1"), ("--fine", JSVal.vStr "2")],
          properties := some [("alsobad", JSVal.vStr "3")] })).errors.length = 2 := by
  refine ⟨fun inp => ?_, fun inp => ?_, by decide, by decide, by decide⟩
  · cases inp with
    | doc d => simp only [validate, List.isEmpty_iff]
    | undef => simp [validate]
    | nullv => simp [validate]
    | prim v => simp [validate]
  · cases inp with
    | doc d => exact validate_doc_chr d
    | undef => simp [validate]
    | nullv => simp [validate]
    | prim v => simp [validate]

end ThemeLoader
